import Mathlib

/-!
Verification of the progressive graph-expansion engine of AiR-Helix-View
(`frontend/src/ImageSimilarityExplorer.js`), shallowly embedded in Lean.

Strings are modelled as `List Char`; JS `null`/`undefined` fields are
modelled with `Option`; the dynamic node/edge objects become records with
optional fields.  The asynchronous client (React state, the `loadQueue` /
`processingQueue` refs, `setTimeout` chains and in-flight fetches) becomes
a labelled transition system further below.
-/

namespace Helix

/-! ## Character-level string helpers (JS `String.prototype.split` on one
separator, as used by `getImageName`) -/

/-- JS `s.split(sep)` for a single-character separator: splits `s` at every
occurrence of `sep`; always returns a non-empty list of segments. -/
def splitOnChar (sep : Char) : List Char → List (List Char)
  | [] => [[]]
  | c :: cs =>
    match splitOnChar sep cs with
    | [] => [[]]
    | r :: rs => if c = sep then [] :: r :: rs else (c :: r) :: rs

theorem splitOnChar_ne_nil (sep : Char) (s : List Char) : splitOnChar sep s ≠ [] := by
  cases s with
  | nil => simp [splitOnChar]
  | cons c cs =>
    simp only [splitOnChar]
    cases h : splitOnChar sep cs with
    | nil => simp
    | cons r rs =>
      by_cases hc : c = sep <;> simp [hc]

/-- Every segment produced by `splitOnChar` is free of the separator. -/
theorem sep_not_mem_of_mem_splitOnChar {sep : Char} {s t : List Char}
    (h : t ∈ splitOnChar sep s) : sep ∉ t := by
  induction s generalizing t with
  | nil =>
    simp [splitOnChar] at h
    simp [h]
  | cons c cs ih =>
    simp only [splitOnChar] at h
    cases hs : splitOnChar sep cs with
    | nil => exact absurd hs (splitOnChar_ne_nil sep cs)
    | cons r rs =>
      rw [hs] at h
      by_cases hc : c = sep
      · simp only [hc, if_pos rfl] at h
        rcases List.mem_cons.mp h with h1 | h1
        · simp [h1]
        · exact ih (hs ▸ h1)
      · simp only [if_neg hc] at h
        rcases List.mem_cons.mp h with h1 | h1
        · subst h1
          intro hmem
          rcases List.mem_cons.mp hmem with h2 | h2
          · exact hc h2.symm
          · have : r ∈ splitOnChar sep cs := hs ▸ List.mem_cons_self r rs
            exact ih this h2
        · exact ih (hs ▸ List.mem_cons_of_mem r h1)

/-- Characters of any segment come from the original string. -/
theorem subset_of_mem_splitOnChar {sep : Char} {s t : List Char}
    (h : t ∈ splitOnChar sep s) : ∀ c ∈ t, c ∈ s := by
  induction s generalizing t with
  | nil =>
    simp [splitOnChar] at h
    simp [h]
  | cons c cs ih =>
    simp only [splitOnChar] at h
    cases hs : splitOnChar sep cs with
    | nil => exact absurd hs (splitOnChar_ne_nil sep cs)
    | cons r rs =>
      rw [hs] at h
      intro x hx
      by_cases hc : c = sep
      · simp only [hc, if_pos rfl] at h
        rcases List.mem_cons.mp h with h1 | h1
        · simp [h1] at hx
        · exact List.mem_cons_of_mem _ (ih (hs ▸ h1) x hx)
      · simp only [if_neg hc] at h
        rcases List.mem_cons.mp h with h1 | h1
        · subst h1
          rcases List.mem_cons.mp hx with h2 | h2
          · exact h2 ▸ List.mem_cons_self c cs
          · have : r ∈ splitOnChar sep cs := hs ▸ List.mem_cons_self r rs
            exact List.mem_cons_of_mem _ (ih this x h2)
        · exact List.mem_cons_of_mem _ (ih (hs ▸ List.mem_cons_of_mem r h1) x hx)

/-- Splitting a string that does not contain the separator is the identity. -/
theorem splitOnChar_of_not_mem {sep : Char} {s : List Char} (h : sep ∉ s) :
    splitOnChar sep s = [s] := by
  induction s with
  | nil => simp [splitOnChar]
  | cons c cs ih =>
    have hc : c ≠ sep := fun hc => h (hc ▸ List.mem_cons_self c cs)
    have hcs : sep ∉ cs := fun hm => h (List.mem_cons_of_mem c hm)
    simp [splitOnChar, ih hcs, hc]

theorem getLastD_mem {α : Type _} {l : List α} (h : l ≠ []) (d : α) :
    l.getLastD d ∈ l := by
  induction l generalizing d with
  | nil => exact absurd rfl h
  | cons x xs ih =>
    rw [List.getLastD_cons]
    cases xs with
    | nil => simp [List.getLastD]
    | cons y ys => exact List.mem_cons_of_mem _ (ih (List.cons_ne_nil _ _) x)

theorem headD_mem {α : Type _} {l : List α} (h : l ≠ []) (d : α) :
    l.headD d ∈ l := by
  cases l with
  | nil => exact absurd rfl h
  | cons x xs => simp [List.headD]

/-! ## `getImageName` (ImageSimilarityExplorer.js lines 39-53) -/

/-- `if (filename.startsWith('images/')) filename = filename.substring(7)`. -/
def stripImages (p : List Char) : List Char :=
  if ("images/".toList).isPrefixOf p then p.drop 7 else p

/-- `filename.split('?')[0].split('/').pop().split('\\').pop()`. -/
def baseNamePart (p : List Char) : List Char :=
  let f2 := (splitOnChar '?' (stripImages p)).headD []
  let f3 := (splitOnChar '/' f2).getLastD []
  (splitOnChar '\\' f3).getLastD []

/-- `getImageName`: `null`/`undefined`/`''` (all falsy) give `'unknown'`;
otherwise strip a leading `images/`, cut at the first `?`, and take the
final `/`- and `\`-separated segment. -/
def getImageName : Option (List Char) → List Char
  | none => "unknown".toList
  | some p => if p = [] then "unknown".toList else baseNamePart p

theorem baseNamePart_chars (p : List Char) :
    '/' ∉ baseNamePart p ∧ '\\' ∉ baseNamePart p ∧ '?' ∉ baseNamePart p := by
  unfold baseNamePart
  set f2 := (splitOnChar '?' (stripImages p)).headD [] with hf2
  set f3 := (splitOnChar '/' f2).getLastD [] with hf3
  have h2 : f2 ∈ splitOnChar '?' (stripImages p) :=
    headD_mem (splitOnChar_ne_nil _ _) []
  have h3 : f3 ∈ splitOnChar '/' f2 :=
    getLastD_mem (splitOnChar_ne_nil _ _) []
  have h4 : (splitOnChar '\\' f3).getLastD [] ∈ splitOnChar '\\' f3 :=
    getLastD_mem (splitOnChar_ne_nil _ _) []
  refine ⟨?_, ?_, ?_⟩
  · intro hmem
    have : '/' ∈ f3 := subset_of_mem_splitOnChar h4 _ hmem
    exact sep_not_mem_of_mem_splitOnChar h3 this
  · exact sep_not_mem_of_mem_splitOnChar h4
  · intro hmem
    have hq3 : '?' ∈ f3 := subset_of_mem_splitOnChar h4 _ hmem
    have hq2 : '?' ∈ f2 := subset_of_mem_splitOnChar h3 _ hq3
    exact sep_not_mem_of_mem_splitOnChar h2 hq2

theorem baseNamePart_fixed {r : List Char}
    (h1 : '/' ∉ r) (h2 : '\\' ∉ r) (h3 : '?' ∉ r) : baseNamePart r = r := by
  have hstrip : stripImages r = r := by
    unfold stripImages
    rw [if_neg]
    intro hpre
    have : ("images/".toList) <+: r := by
      exact (List.isPrefixOf_iff_prefix).mp hpre
    exact h1 (this.subset (by decide))
  unfold baseNamePart
  rw [hstrip, splitOnChar_of_not_mem h3]
  simp only [List.headD_cons]
  rw [splitOnChar_of_not_mem h1]
  simp only [List.getLastD_cons, List.getLastD_nil]
  rw [splitOnChar_of_not_mem h2]
  simp

/-! ## Data model

Node/edge/link objects as the client handles them.  API nodes may omit
`label`, `isCenter` and `level`; `mergeGraphData` appends raw API nodes,
so one record type serves both API nodes and graph nodes. -/

structure NodeData where
  id : Nat
  path : Option (List Char) := none
  label : Option (List Char) := none
  isCenter : Option Bool := none
  level : Option Nat := none
deriving DecidableEq, Repr

/-- A raw API edge: `{id, source, target, weight}`. -/
structure ApiEdge where
  id : Nat
  source : Nat
  target : Nat
  weight : Option Int := none
deriving DecidableEq, Repr

/-- A link held in `graphData.links`: `{id, source, target, value}`. -/
structure LinkData where
  id : Nat
  source : Nat
  target : Nat
  value : Option Int := none
deriving DecidableEq, Repr

/-- The running graph: `{ nodes: [], links: [] }`. -/
@[ext]
structure GraphData where
  nodes : List NodeData
  links : List LinkData
deriving DecidableEq, Repr

/-- A server response body; `nodes`/`edges` may be absent
(`newData.edges ? ... : []`). -/
structure ApiData where
  nodes : Option (List NodeData) := none
  edges : Option (List ApiEdge) := none
deriving DecidableEq, Repr

/-! ## `mergeGraphData` (ImageSimilarityExplorer.js lines 232-258) -/

/-- `edge => ({id: edge.id, source: edge.source, target: edge.target,
value: edge.weight})`. -/
def toLink (e : ApiEdge) : LinkData :=
  { id := e.id, source := e.source, target := e.target, value := e.weight }

/-- Merge a server response into the running graph, dropping incoming nodes
and links whose `id` is already present. -/
def mergeGraphData (currentData : GraphData) (newData : ApiData) : GraphData :=
  let newLinks := (newData.edges.getD []).map toLink
  let existingNodeIds := currentData.nodes.map NodeData.id
  let existingLinkIds := currentData.links.map LinkData.id
  let filteredNewNodes :=
    (newData.nodes.getD []).filter (fun n => decide (n.id ∉ existingNodeIds))
  let filteredNewLinks :=
    newLinks.filter (fun l => decide (l.id ∉ existingLinkIds))
  { nodes := currentData.nodes ++ filteredNewNodes
    links := currentData.links ++ filteredNewLinks }

theorem mergeGraphData_nodes (c : GraphData) (p : ApiData) :
    (mergeGraphData c p).nodes =
      c.nodes ++ (p.nodes.getD []).filter
        (fun n => decide (n.id ∉ c.nodes.map NodeData.id)) := rfl

theorem mergeGraphData_links (c : GraphData) (p : ApiData) :
    (mergeGraphData c p).links =
      c.links ++ ((p.edges.getD []).map toLink).filter
        (fun l => decide (l.id ∉ c.links.map LinkData.id)) := rfl

theorem mem_merge_of_mem_new {c : GraphData} {p : ApiData} {n : NodeData}
    (h : n ∈ p.nodes.getD []) :
    n.id ∈ (mergeGraphData c p).nodes.map NodeData.id := by
  rw [mergeGraphData_nodes, List.map_append, List.mem_append]
  by_cases hc : n.id ∈ c.nodes.map NodeData.id
  · exact Or.inl hc
  · right
    exact List.mem_map_of_mem NodeData.id (List.mem_filter.mpr ⟨h, by simpa using hc⟩)

/-- C3: merge is idempotent — re-merging an already-processed result
changes nothing, because every insertion is guarded by an id-presence
check against the running graph. -/
theorem mergeGraphData_idem (c : GraphData) (p : ApiData) :
    mergeGraphData (mergeGraphData c p) p = mergeGraphData c p := by
  have hn : ((p.nodes.getD []).filter
      (fun n => decide (n.id ∉ (mergeGraphData c p).nodes.map NodeData.id))) = [] := by
    rw [List.filter_eq_nil_iff]
    intro n hmem
    simpa using mem_merge_of_mem_new (c := c) hmem
  have hl : (((p.edges.getD []).map toLink).filter
      (fun l => decide (l.id ∉ (mergeGraphData c p).links.map LinkData.id))) = [] := by
    rw [List.filter_eq_nil_iff]
    intro l hmem
    simp only [decide_eq_true_eq, Decidable.not_not]
    rw [mergeGraphData_links, List.map_append, List.mem_append]
    by_cases hc : l.id ∈ c.links.map LinkData.id
    · exact Or.inl hc
    · right
      exact List.mem_map_of_mem LinkData.id (List.mem_filter.mpr ⟨hmem, by simpa using hc⟩)
  ext1
  · rw [mergeGraphData_nodes (mergeGraphData c p) p, hn, List.append_nil]
  · rw [mergeGraphData_links (mergeGraphData c p) p, hl, List.append_nil]

/-- C9: merge only appends — everything already in the graph survives a
merge unchanged (it sits in the unmodified prefix), and everything the
merge appends carries an id that was not yet present, so an incoming node
or link whose id already exists contributes nothing and the attributes
recorded at first insertion stay frozen. -/
theorem mergeGraphData_append_only (c : GraphData) (p : ApiData) :
    ∃ addN addL,
      (mergeGraphData c p).nodes = c.nodes ++ addN ∧
      (mergeGraphData c p).links = c.links ++ addL ∧
      (∀ n ∈ addN, n ∈ p.nodes.getD [] ∧ n.id ∉ c.nodes.map NodeData.id) ∧
      (∀ l ∈ addL, l ∈ (p.edges.getD []).map toLink ∧
        l.id ∉ c.links.map LinkData.id) := by
  refine ⟨_, _, mergeGraphData_nodes c p, mergeGraphData_links c p, ?_, ?_⟩
  · intro n hn
    have h := List.mem_filter.mp hn
    exact ⟨h.1, by simpa using h.2⟩
  · intro l hl
    have h := List.mem_filter.mp hl
    exact ⟨h.1, by simpa using h.2⟩

/-- Witness for the frame theorem at a concrete graph and response. -/
theorem mergeGraphData_append_only_witness :
    ∃ addN addL,
      (mergeGraphData { nodes := [{ id := 0 }], links := [] }
        { nodes := some [{ id := 0 }, { id := 1 }], edges := none }).nodes =
        [{ id := 0 }] ++ addN ∧
      (mergeGraphData { nodes := [{ id := 0 }], links := [] }
        { nodes := some [{ id := 0 }, { id := 1 }], edges := none }).links =
        [] ++ addL ∧
      (∀ n ∈ addN, n ∈ [({ id := 0 } : NodeData), { id := 1 }] ∧
        n.id ∉ [({ id := 0 } : NodeData)].map NodeData.id) ∧
      (∀ l ∈ addL, l ∈ ([] : List ApiEdge).map toLink ∧
        l.id ∉ ([] : List LinkData).map LinkData.id) :=
  mergeGraphData_append_only { nodes := [{ id := 0 }], links := [] }
    { nodes := some [{ id := 0 }, { id := 1 }], edges := none }

/-- The graph used for the C6 counterexample: just the expanded source
node (id 0). -/
def srcGraph : GraphData :=
  { nodes := [{ id := 0, isCenter := some true, level := some 0 }], links := [] }

/-- A partial result whose only node (id 1) carries no edge at all. -/
def orphanResult : ApiData :=
  { nodes := some [{ id := 1 }], edges := some [] }

/-- C6 counterexample: merging a partial result that supplies a new node
with no edge back to the expanded source yields a graph with NO link at
all — `mergeGraphData` never synthesizes a source-to-node edge, so the
new node is left disconnected from the center. -/
theorem no_synthetic_edge_cex :
    ({ id := 1 } : NodeData) ∈ (mergeGraphData srcGraph orphanResult).nodes ∧
    (mergeGraphData srcGraph orphanResult).links = [] := by
  exact ⟨by decide, rfl⟩

/-- C6 amended: every link of a merged graph comes either from the graph
before the merge or from an edge literally present in the partial result;
no edge is ever synthesized. -/
theorem mergeGraphData_links_from_input (c : GraphData) (p : ApiData) :
    ∀ l ∈ (mergeGraphData c p).links,
      l ∈ c.links ∨ ∃ e ∈ p.edges.getD [], toLink e = l := by
  intro l hl
  rw [mergeGraphData_links] at hl
  rcases List.mem_append.mp hl with h | h
  · exact Or.inl h
  · have hmap := (List.mem_filter.mp h).1
    rcases List.mem_map.mp hmap with ⟨e, he, rfl⟩
    exact Or.inr ⟨e, he, rfl⟩

/-- Witness for the links-from-input theorem at concrete data. -/
theorem mergeGraphData_links_from_input_witness :
    ({ id := 5, source := 0, target := 1 } : LinkData) ∈
      (mergeGraphData srcGraph
        { nodes := some [{ id := 1 }],
          edges := some [{ id := 5, source := 0, target := 1 }] }).links ∧
    (({ id := 5, source := 0, target := 1 } : LinkData) ∈ srcGraph.links ∨
      ∃ e ∈ [({ id := 5, source := 0, target := 1 } : ApiEdge)],
        toLink e = { id := 5, source := 0, target := 1 }) := by
  refine ⟨by decide, ?_⟩
  exact mergeGraphData_links_from_input srcGraph
    { nodes := some [{ id := 1 }],
      edges := some [{ id := 5, source := 0, target := 1 }] }
    { id := 5, source := 0, target := 1 } (by decide)

/-- C10 counterexample: `getImageName` is not idempotent.  For the path
`"a/"` the final segment is empty, so the first application returns `""`;
the second application hits the falsy-path guard and returns
`"unknown"`. -/
theorem getImageName_not_idempotent :
    getImageName (some (getImageName (some ('a' :: '/' :: [])))) ≠
      getImageName (some ('a' :: '/' :: [])) := by decide

/-- C10 amended: `getImageName` is total; null/undefined/empty paths give
`'unknown'`; otherwise it strips a leading `images/`, truncates at the
first `?` and returns the final `/`- or `\`-separated segment; it is
idempotent on every path whose result is nonempty, while a path whose
final segment is empty yields `''` and re-application then yields
`'unknown'`. -/
theorem getImageName_spec :
    getImageName none = "unknown".toList ∧
    getImageName (some []) = "unknown".toList ∧
    (∀ p : List Char, getImageName (some p) ≠ [] →
      getImageName (some (getImageName (some p))) = getImageName (some p)) ∧
    (∀ p : List Char, getImageName (some p) = [] →
      getImageName (some (getImageName (some p))) = "unknown".toList) := by
  refine ⟨rfl, rfl, ?_, ?_⟩
  · intro p hne
    by_cases hp : p = []
    · subst hp
      decide
    · have hval : getImageName (some p) = baseNamePart p := by
        simp [getImageName, hp]
      rw [hval] at hne ⊢
      have hch := baseNamePart_chars p
      have : getImageName (some (baseNamePart p)) = baseNamePart (baseNamePart p) := by
        simp [getImageName, hne]
      rw [this, baseNamePart_fixed hch.1 hch.2.1 hch.2.2]
  · intro p hnil
    rw [hnil]
    rfl

/-- Witness for `getImageName_spec` at the concrete path `"x.jpg"`. -/
theorem getImageName_spec_witness :
    getImageName (some ("x.jpg".toList)) ≠ [] ∧
    getImageName (some (getImageName (some ("x.jpg".toList)))) =
      getImageName (some ("x.jpg".toList)) :=
  ⟨by decide, getImageName_spec.2.2.1 ("x.jpg".toList) (by decide)⟩

/-! ## Click disambiguation (ImageSimilarityExplorer.js lines 381-415)

`handleNodeClick` arms (re-arms) a 750 ms timeout whose callback opens the
detail modal (a "select") when the node is non-null with a truthy `path`;
`handleNodeDoubleClick` cancels any armed timeout and enqueues the node at
the front of the load queue (an "expand").  The machine state is the armed
timeout (`clickTimeoutRef`); events are the browser's `click` and
`dblclick` deliveries plus the timeout firing. -/

/-- JS truthiness of `node.path` (`null`/`undefined`/`''` are falsy). -/
def truthyPath : Option (List Char) → Bool
  | none => false
  | some [] => false
  | some (_ :: _) => true

inductive UiEvent where
  | select (nodeId : Nat)
  | expand (nodeId : Nat)
deriving DecidableEq, Repr

inductive ClickEvt where
  | click (n : NodeData)
  | dbl (n : NodeData)
  | fire
deriving DecidableEq, Repr

/-- One transition of the click-disambiguation machine, returning the new
armed-timeout state and the emitted events. -/
def clickStep : Option NodeData → ClickEvt → Option NodeData × List UiEvent
  | _, ClickEvt.click n => (some n, [])
  | _, ClickEvt.dbl n => (none, [UiEvent.expand n.id])
  | some n, ClickEvt.fire =>
      (none, if truthyPath n.path then [UiEvent.select n.id] else [])
  | none, ClickEvt.fire => (none, [])

/-- Run a sequence of click-machine events, accumulating emissions. -/
def runClicks (st : Option NodeData) : List ClickEvt → Option NodeData × List UiEvent
  | [] => (st, [])
  | e :: rest =>
    let r := clickStep st e
    let r2 := runClicks r.1 rest
    (r2.1, r.2 ++ r2.2)

/-- C7 counterexample: a single click on a node whose `path` is null,
followed by the disambiguation timeout, emits NO event at all — the
timeout callback is guarded by `if (node && node.path)` — contradicting
"exactly one select, never zero". -/
theorem pathless_click_zero_events :
    (runClicks none [ClickEvt.click { id := 3 }, ClickEvt.fire]).2 = [] := by
  decide

/-- C7 amended: per completed click sequence at most one of select/expand
fires and never both: two clicks within the timeout (delivered by the
browser as click, click, dblclick) emit exactly one expand and no select;
a single click followed by the timeout emits exactly one select when the
node's `path` is truthy, and nothing when `path` is falsy. -/
theorem click_disambiguation (n : NodeData) :
    (runClicks none [ClickEvt.click n, ClickEvt.click n, ClickEvt.dbl n]).2 =
      [UiEvent.expand n.id] ∧
    (truthyPath n.path = true →
      (runClicks none [ClickEvt.click n, ClickEvt.fire]).2 = [UiEvent.select n.id]) ∧
    (truthyPath n.path = false →
      (runClicks none [ClickEvt.click n, ClickEvt.fire]).2 = []) := by
  refine ⟨by simp [runClicks, clickStep], ?_, ?_⟩
  · intro h
    simp [runClicks, clickStep, h]
  · intro h
    simp [runClicks, clickStep, h]

/-- Witness for `click_disambiguation` at a node with a truthy path. -/
theorem click_disambiguation_witness :
    (runClicks none [ClickEvt.click { id := 4, path := some ('x' :: []) },
        ClickEvt.fire]).2 =
      [UiEvent.select 4] :=
  (click_disambiguation { id := 4, path := some ('x' :: []) }).2.1 (by decide)

/-! ## Client scheduler state machine

The component's relevant mutable state: the React state `graphData` and
`expandedNodes`, the refs `loadQueue` and `processingQueue`, plus the
outstanding asynchronous work.  Because `processLoadQueue`,
`handleViewportChange` and `handleNodeDoubleClick` are `useCallback`
closures, each invocation reads `graphData`/`expandedNodes` from the
render at which the closure was created: a `Snap`.  The refs `loadQueue` /
`processingQueue` are always current.  A `setTimeout(processLoadQueue)`
continuation and an awaited `fetch` are the two kinds of pending chain
work; initial-load fetches (`fetchData` in the center-image effect) are
tracked separately since they bypass the queue. -/

structure Config where
  maxNodes : Nat
  autoLoad : Bool
  extendedMode : Bool
deriving DecidableEq, Repr

/-- The `graphData`/`expandedNodes` values captured by a `useCallback`
closure at its creating render. -/
structure Snap where
  graph : GraphData
  expanded : List Nat
deriving DecidableEq, Repr

/-- Pending continuation of the `processLoadQueue` chain: either a
`setTimeout(() => processLoadQueue(), …)` or an awaited expansion
`fetch`; each carries the closure snapshot it will run with. -/
inductive ChainTask where
  | timer (snap : Snap)
  | fetchWait (snap : Snap) (nodeId : Nat)
deriving DecidableEq, Repr

structure ClientState where
  graph : GraphData
  expanded : List Nat
  queue : List Nat
  flag : Bool
  chain : List ChainTask
  inits : List Nat
  errLog : List Nat
deriving DecidableEq, Repr

/-- Component state at mount: empty graph, nothing expanded, empty queue,
`processingQueue.current === false`, no pending work. -/
def initState : ClientState :=
  { graph := { nodes := [], links := [] }, expanded := [], queue := [],
    flag := false, chain := [], inits := [], errLog := [] }

/-- The synchronous segment of `processLoadQueue` (lines 96-137), from
entry to the first `await` or `return`: empty queue → clear the flag;
budget reached (in the closure's captured graph) → drain the queue and
clear the flag; otherwise set the flag, shift the head, and either skip it
(already expanded / not found: a 50 ms retry timer) or issue the
expansion fetch. -/
def runStep (cfg : Config) (snap : Snap) (s : ClientState) : ClientState :=
  match s.queue with
  | [] => { s with flag := false }
  | nodeId :: rest =>
    if cfg.maxNodes ≤ snap.graph.nodes.length then
      { s with queue := [], flag := false }
    else if nodeId ∈ snap.expanded then
      { s with flag := true, queue := rest, chain := s.chain ++ [ChainTask.timer snap] }
    else
      match snap.graph.nodes.find? (fun n => decide (n.id = nodeId)) with
      | none =>
        { s with flag := true, queue := rest, chain := s.chain ++ [ChainTask.timer snap] }
      | some _ =>
        { s with
          flag := true
          queue := rest
          chain := s.chain ++ [ChainTask.fetchWait snap nodeId] }

/-- `if (!processingQueue.current) processLoadQueue()`. -/
def maybeKick (cfg : Config) (snap : Snap) (s : ClientState) : ClientState :=
  if s.flag then s else runStep cfg snap s

/-- `handleNodeDoubleClick` (lines 401-415): cancel the select timeout
(modelled in the click machine), prepend the node id unconditionally, then
kick the queue processor. -/
def dblclickStep (cfg : Config) (snap : Snap) (nodeId : Nat) (s : ClientState) :
    ClientState :=
  maybeKick cfg snap { s with queue := nodeId :: s.queue }

/-- The ids `handleViewportChange` (lines 199-223) would push for a given
visible-node list: visible nodes not in the handler's captured expanded
set and not in the current queue, capped at 3. -/
def viewportAdded (snap : Snap) (visible : List NodeData) (s : ClientState) :
    List Nat :=
  ((visible.filter (fun n =>
      decide (n.id ∉ snap.expanded) && decide (n.id ∉ s.queue))).take 3).map
    NodeData.id

/-- `handleViewportChange`: when auto-loading is on, extended mode is off
and the captured graph is non-empty, append up to 3 eligible visible node
ids and kick the processor if any were added. -/
def viewportStep (cfg : Config) (snap : Snap) (visible : List NodeData)
    (s : ClientState) : ClientState :=
  if cfg.autoLoad ∧ ¬cfg.extendedMode ∧ 0 < snap.graph.nodes.length then
    if viewportAdded snap visible s = [] then s
    else maybeKick cfg snap { s with queue := s.queue ++ viewportAdded snap visible s }
  else s

/-- The auto-loading effect (lines 375-379): kick the processor when
auto-loading is enabled, the queue is non-empty and the flag is clear. -/
def autoKickStep (cfg : Config) (snap : Snap) (s : ClientState) : ClientState :=
  if cfg.autoLoad ∧ s.queue ≠ [] ∧ s.flag = false then runStep cfg snap s else s

/-- Successful completion of an expansion fetch (lines 144-166, 171-174):
merge the response into the closure's captured graph and install the
result, add the node id to the current expanded set, and schedule the
300 ms continuation timer. -/
def fetchOkStep (_cfg : Config) (snap : Snap) (nodeId : Nat) (data : ApiData)
    (s : ClientState) : ClientState :=
  { s with
    graph := mergeGraphData snap.graph data,
    expanded := if nodeId ∈ s.expanded then s.expanded else s.expanded ++ [nodeId],
    chain := (s.chain.erase (ChainTask.fetchWait snap nodeId)) ++ [ChainTask.timer snap] }

/-- Failed expansion fetch (lines 167-174): log the error, change neither
graph nor expanded set nor queue, and schedule the continuation timer. -/
def fetchErrStep (_cfg : Config) (snap : Snap) (nodeId : Nat) (s : ClientState) :
    ClientState :=
  { s with
    errLog := s.errLog ++ [nodeId],
    chain := (s.chain.erase (ChainTask.fetchWait snap nodeId)) ++ [ChainTask.timer snap] }

/-- A pending `setTimeout(() => processLoadQueue(), …)` fires: the same
closure (same snapshot) runs another synchronous segment. -/
def timerStep (cfg : Config) (snap : Snap) (s : ClientState) : ClientState :=
  runStep cfg snap { s with chain := s.chain.erase (ChainTask.timer snap) }

/-- Start of `fetchData` in the center-image effect (lines 264-283): clear
the expanded set and the queue, and issue the initial-load fetch.  The
`processingQueue` flag and any pending chain work are NOT touched. -/
def resetStartStep (center : Nat) (s : ClientState) : ClientState :=
  { s with expanded := [], queue := [], inits := s.inits ++ [center] }

/-- `node.label \|\| getImageName(node.path)`, `node.isCenter \|\| false`,
`node.level \|\| 0` (lines 311-319). -/
def transformNode (n : NodeData) : NodeData :=
  { id := n.id, path := n.path,
    label := some (match n.label with
      | some l => if l = [] then getImageName n.path else l
      | none => getImageName n.path),
    isCenter := some (n.isCenter.getD false),
    level := some (n.level.getD 0) }

/-- The initial-load transformation of an API response (lines 298-329). -/
def transformApi (data : ApiData) : GraphData :=
  { nodes := (data.nodes.getD []).map transformNode,
    links := (data.edges.getD []).map toLink }

/-- Successful completion of the initial load (lines 291-339): seed the
expanded set with the center node's id when one is flagged, and install
the transformed response as the whole graph. -/
def initOkStep (center : Nat) (data : ApiData) (s : ClientState) : ClientState :=
  let expanded' :=
    match (data.nodes.getD []).find? (fun n => n.isCenter.getD false) with
    | some c => [c.id]
    | none => s.expanded
  { s with
    graph := transformApi data
    expanded := expanded'
    inits := s.inits.erase center }

/-- Failed initial load (lines 355-360): only the error banner is set. -/
def initErrStep (center : Nat) (s : ClientState) : ClientState :=
  { s with inits := s.inits.erase center }

/-- One asynchronous event of the client.  Snapshots on user-event steps
are free parameters: a delivered event runs whichever closure version the
handler refs point at, whose captured state is some earlier render's. -/
inductive Step (cfg : Config) : ClientState → ClientState → Prop where
  | dblclick (s : ClientState) (snap : Snap) (nodeId : Nat) :
      Step cfg s (dblclickStep cfg snap nodeId s)
  | viewport (s : ClientState) (snap : Snap) (visible : List NodeData) :
      Step cfg s (viewportStep cfg snap visible s)
  | autoKick (s : ClientState) (snap : Snap) :
      Step cfg s (autoKickStep cfg snap s)
  | timerFired (s : ClientState) (snap : Snap)
      (h : ChainTask.timer snap ∈ s.chain) :
      Step cfg s (timerStep cfg snap s)
  | fetchOk (s : ClientState) (snap : Snap) (nodeId : Nat) (data : ApiData)
      (h : ChainTask.fetchWait snap nodeId ∈ s.chain) :
      Step cfg s (fetchOkStep cfg snap nodeId data s)
  | fetchErr (s : ClientState) (snap : Snap) (nodeId : Nat)
      (h : ChainTask.fetchWait snap nodeId ∈ s.chain) :
      Step cfg s (fetchErrStep cfg snap nodeId s)
  | resetStart (s : ClientState) (center : Nat) :
      Step cfg s (resetStartStep center s)
  | initOk (s : ClientState) (center : Nat) (data : ApiData)
      (h : center ∈ s.inits) :
      Step cfg s (initOkStep center data s)
  | initErr (s : ClientState) (center : Nat) (h : center ∈ s.inits) :
      Step cfg s (initErrStep center s)

/-- States the mounted component can reach under any interleaving of
viewport events, clicks, timer firings and fetch completions. -/
def Reachable (cfg : Config) (s : ClientState) : Prop :=
  Relation.ReflTransGen (Step cfg) initState s

/-! ## Single-flight discipline -/

/-- The scheduler invariant: at most one pending chain continuation (an
in-flight fetch or a scheduled `processLoadQueue` timer), and none at all
while `processingQueue.current` is false. -/
def Inv (s : ClientState) : Prop :=
  s.chain.length ≤ 1 ∧ (s.flag = false → s.chain = [])

theorem runStep_inv (cfg : Config) (snap : Snap) {s : ClientState}
    (h : s.chain = []) : Inv (runStep cfg snap s) := by
  unfold runStep
  split
  · exact ⟨by simp [h], fun _ => h⟩
  · split
    · exact ⟨by simp [h], fun _ => h⟩
    · split
      · exact ⟨by simp [h], by intro hf; simp at hf⟩
      · split
        · exact ⟨by simp [h], by intro hf; simp at hf⟩
        · exact ⟨by simp [h], by intro hf; simp at hf⟩

theorem maybeKick_inv (cfg : Config) (snap : Snap) {s : ClientState}
    (hs : Inv s) : Inv (maybeKick cfg snap s) := by
  unfold maybeKick
  split
  · exact hs
  next hf => exact runStep_inv cfg snap (hs.2 (by simpa using hf))

theorem eq_singleton_of_mem_of_length_le_one {α : Type _} {l : List α} {a : α}
    (h : a ∈ l) (hl : l.length ≤ 1) : l = [a] := by
  cases l with
  | nil => cases h
  | cons x xs =>
    cases xs with
    | nil => simp at h; simp [h]
    | cons y ys => simp at hl

theorem flag_true_of_chain_mem {s : ClientState} {t : ChainTask}
    (hs : Inv s) (h : t ∈ s.chain) : s.flag = true := by
  cases hf : s.flag with
  | true => rfl
  | false => rw [hs.2 hf] at h; cases h

theorem inv_preserved {cfg : Config} {s s' : ClientState}
    (hs : Inv s) (hstep : Step cfg s s') : Inv s' := by
  cases hstep with
  | dblclick snap nodeId =>
    exact maybeKick_inv cfg snap ⟨hs.1, hs.2⟩
  | viewport snap visible =>
    unfold viewportStep
    split
    · split
      · exact hs
      · exact maybeKick_inv cfg snap ⟨hs.1, hs.2⟩
    · exact hs
  | autoKick snap =>
    unfold autoKickStep
    split
    next hc => exact runStep_inv cfg snap (hs.2 hc.2.2)
    · exact hs
  | timerFired snap h =>
    have hchain : s.chain = [ChainTask.timer snap] :=
      eq_singleton_of_mem_of_length_le_one h hs.1
    unfold timerStep
    exact runStep_inv cfg snap (by simp [hchain])
  | fetchOk snap nodeId data h =>
    have hchain : s.chain = [ChainTask.fetchWait snap nodeId] :=
      eq_singleton_of_mem_of_length_le_one h hs.1
    have hflag : s.flag = true := flag_true_of_chain_mem hs h
    refine ⟨by simp [fetchOkStep, hchain], ?_⟩
    intro hf
    simp [fetchOkStep] at hf
    rw [hflag] at hf
    cases hf
  | fetchErr snap nodeId h =>
    have hchain : s.chain = [ChainTask.fetchWait snap nodeId] :=
      eq_singleton_of_mem_of_length_le_one h hs.1
    have hflag : s.flag = true := flag_true_of_chain_mem hs h
    refine ⟨by simp [fetchErrStep, hchain], ?_⟩
    intro hf
    simp [fetchErrStep] at hf
    rw [hflag] at hf
    cases hf
  | resetStart center => exact ⟨hs.1, hs.2⟩
  | initOk center data h => exact ⟨hs.1, hs.2⟩
  | initErr center h => exact ⟨hs.1, hs.2⟩

/-- C5: single-flight discipline — in every reachable state of the
scheduler there is at most one pending chain continuation (in-flight
expansion fetch or scheduled `processLoadQueue` timer), and none while
the `processingQueue` flag is clear; hence expansion fetches never
overlap and merges are applied strictly one at a time. -/
theorem single_flight (cfg : Config) (s : ClientState) (h : Reachable cfg s) :
    s.chain.length ≤ 1 ∧ (s.flag = false → s.chain = []) := by
  have hinv : Inv s := by
    induction h with
    | refl => exact ⟨by simp [initState], fun _ => rfl⟩
    | tail _ hstep ih => exact inv_preserved ih hstep
  exact hinv

/-- Witness: `single_flight` at the mount state. -/
theorem single_flight_witness :
    initState.chain.length ≤ 1 ∧ (initState.flag = false → initState.chain = []) :=
  single_flight { maxNodes := 200, autoLoad := true, extendedMode := true }
    initState Relation.ReflTransGen.refl

/-! ## Concrete traces -/

/-- The component's default configuration (maxNodesLimit 200, auto-loading
on, extended mode on). -/
def cfgStd : Config := { maxNodes := 200, autoLoad := true, extendedMode := true }

/-- First center's response: a center node (id 0) and one neighbor (id 1). -/
def oldData : ApiData :=
  { nodes := some [{ id := 0, isCenter := some true }, { id := 1 }],
    edges := some [] }

/-- Second center's response after the reset: a single center node (id 9). -/
def freshData : ApiData :=
  { nodes := some [{ id := 9, isCenter := some true }], edges := some [] }

/-- The stale expansion response, arriving after the reset. -/
def staleData : ApiData := { nodes := some [{ id := 2 }], edges := some [] }

def a1 : ClientState := resetStartStep 7 initState
def a2 : ClientState := initOkStep 7 oldData a1

/-- The render snapshot captured by the `processLoadQueue` closure current
at state `a2`. -/
def snapOld : Snap := { graph := a2.graph, expanded := a2.expanded }

def a3 : ClientState := dblclickStep cfgStd snapOld 1 a2
def a4 : ClientState := resetStartStep 9 a3
def a5 : ClientState := initOkStep 9 freshData a4
def a6 : ClientState := fetchOkStep cfgStd snapOld 1 staleData a5

/-- C1 counterexample: the center changes (generation "bump") while the
expansion fetch for node 1 is in flight; the reset completes and installs
the new center's graph, yet the stale completion is still merged — the
graph after the reset contains node 0 from the previous center's session,
which the new center's response never mentioned.  There is no generation
token anywhere in the client. -/
theorem stale_completion_merged_cex :
    Reachable cfgStd a5 ∧
    a5.graph = transformApi freshData ∧
    ChainTask.fetchWait snapOld 1 ∈ a5.chain ∧
    Step cfgStd a5 a6 ∧
    transformNode { id := 0, isCenter := some true } ∈ a6.graph.nodes ∧
    transformNode { id := 0, isCenter := some true } ∉ (transformApi freshData).nodes := by
  refine ⟨?_, by decide, by decide, Step.fetchOk a5 snapOld 1 staleData (by decide),
    by decide, by decide⟩
  have t1 : Step cfgStd initState a1 := Step.resetStart initState 7
  have t2 : Step cfgStd a1 a2 := Step.initOk a1 7 oldData (by decide)
  have t3 : Step cfgStd a2 a3 := Step.dblclick a2 snapOld 1
  have t4 : Step cfgStd a3 a4 := Step.resetStart a3 9
  have t5 : Step cfgStd a4 a5 := Step.initOk a4 9 freshData (by decide)
  exact ((((Relation.ReflTransGen.refl.tail t1).tail t2).tail t3).tail t4).tail t5

/-- C1 amended: the client has no generation token — completion of an
expansion fetch merges unconditionally: whatever happened since the fetch
was issued (including a center change), the completion step installs the
merge of the response into the snapshot captured at issue time, so every
node of that pre-reset snapshot reappears in the installed graph. -/
theorem stale_completion_merges_snapshot (cfg : Config) (s : ClientState)
    (snap : Snap) (nodeId : Nat) (data : ApiData)
    (h : ChainTask.fetchWait snap nodeId ∈ s.chain) :
    Step cfg s (fetchOkStep cfg snap nodeId data s) ∧
    (fetchOkStep cfg snap nodeId data s).graph = mergeGraphData snap.graph data ∧
    ∀ n ∈ snap.graph.nodes, n ∈ (fetchOkStep cfg snap nodeId data s).graph.nodes := by
  refine ⟨Step.fetchOk s snap nodeId data h, rfl, ?_⟩
  intro n hn
  have : (fetchOkStep cfg snap nodeId data s).graph = mergeGraphData snap.graph data := rfl
  rw [this, mergeGraphData_nodes]
  exact List.mem_append_left _ hn

/-- Witness: the unconditional-merge theorem at the concrete stale
completion of the C1 trace. -/
theorem stale_completion_merges_snapshot_witness :
    a6.graph = mergeGraphData snapOld.graph staleData :=
  (stale_completion_merges_snapshot cfgStd a5 snapOld 1 staleData (by decide)).2.1

/-! C4 trace: the expansion of node 1 completes normally (it is now
expanded), then the user double-clicks node 1 twice more. -/

/-- An expansion response carrying nothing new. -/
def emptyResp : ApiData := { nodes := some [], edges := some [] }

def b4 : ClientState := fetchOkStep cfgStd snapOld 1 emptyResp a3
def b5 : ClientState := dblclickStep cfgStd snapOld 1 b4
def b6 : ClientState := dblclickStep cfgStd snapOld 1 b5

/-- C4 counterexample: node 1 is already expanded, yet each double-click
prepends it again — `handleNodeDoubleClick` has no expanded- or
already-queued check — so a reachable queue holds the id of an expanded
node twice. -/
theorem queue_duplicate_cex :
    Reachable cfgStd b6 ∧ b6.queue = [1, 1] ∧ (1 : Nat) ∈ b6.expanded := by
  refine ⟨?_, by decide, by decide⟩
  have t1 : Step cfgStd initState a1 := Step.resetStart initState 7
  have t2 : Step cfgStd a1 a2 := Step.initOk a1 7 oldData (by decide)
  have t3 : Step cfgStd a2 a3 := Step.dblclick a2 snapOld 1
  have t4 : Step cfgStd a3 b4 := Step.fetchOk a3 snapOld 1 emptyResp (by decide)
  have t5 : Step cfgStd b4 b5 := Step.dblclick b4 snapOld 1
  have t6 : Step cfgStd b5 b6 := Step.dblclick b5 snapOld 1
  exact (((((Relation.ReflTransGen.refl.tail t1).tail t2).tail t3).tail t4).tail
    t5).tail t6

/-- C4 amended: deduplication holds only on the viewport path — a
viewport pass enqueues only ids that are neither in the handler's captured
expanded set nor already in the queue — and an already-expanded id that
does reach the queue head is skipped at dequeue time without issuing a
fetch; the double-click path prepends unconditionally, so duplicates and
expanded ids can enter the queue (see the counterexample). -/
theorem enqueue_discipline :
    (∀ (snap : Snap) (visible : List NodeData) (s : ClientState),
      ∀ id ∈ viewportAdded snap visible s, id ∉ snap.expanded ∧ id ∉ s.queue) ∧
    (∀ (cfg : Config) (snap : Snap) (s : ClientState) (nodeId : Nat) (rest : List Nat),
      s.queue = nodeId :: rest → ¬cfg.maxNodes ≤ snap.graph.nodes.length →
      nodeId ∈ snap.expanded →
      runStep cfg snap s =
        { s with flag := true, queue := rest
                 chain := s.chain ++ [ChainTask.timer snap] }) := by
  constructor
  · intro snap visible s id hid
    unfold viewportAdded at hid
    rcases List.mem_map.mp hid with ⟨n, hn, rfl⟩
    have hfil := List.mem_filter.mp (List.mem_of_mem_take hn)
    have hcond := hfil.2
    simp only [Bool.and_eq_true, decide_eq_true_eq] at hcond
    exact hcond
  · intro cfg snap s nodeId rest hq hbudget hexp
    unfold runStep
    rw [hq]
    simp [hbudget, hexp]

/-- Witness: both halves of `enqueue_discipline` at concrete data. -/
theorem enqueue_discipline_witness :
    runStep cfgStd { graph := srcGraph, expanded := [5] }
        { initState with queue := [5] } =
      { ({ initState with queue := [5] } : ClientState) with
        flag := true, queue := []
        chain := [ChainTask.timer { graph := srcGraph, expanded := [5] }] } :=
  enqueue_discipline.2 cfgStd { graph := srcGraph, expanded := [5] }
    { initState with queue := [5] } 5 [] rfl (by decide) (by decide)

/-! C2 trace: with the node budget at the slider minimum (50), the
initial load brings 49 nodes, one node is double-clicked, and its
expansion response of 2 nodes pushes the graph to 51 nodes. -/

def cfg50 : Config := { maxNodes := 50, autoLoad := true, extendedMode := true }

/-- Initial response with a center and 48 neighbors (ids 0..48). -/
def bigResponse : ApiData :=
  { nodes := some ({ id := 0, isCenter := some true } ::
      (List.range 48).map (fun i => { id := i + 1 })),
    edges := some [] }

/-- The expansion response for node 1: two fresh nodes. -/
def twoMore : ApiData :=
  { nodes := some [{ id := 100 }, { id := 101 }], edges := some [] }

def c1 : ClientState := resetStartStep 7 initState
def c2 : ClientState := initOkStep 7 bigResponse c1

/-- The snapshot captured at state `c2` (49-node graph). -/
def snapBig : Snap := { graph := c2.graph, expanded := c2.expanded }

def c3 : ClientState := dblclickStep cfg50 snapBig 1 c2
def c4 : ClientState := fetchOkStep cfg50 snapBig 1 twoMore c3

/-- C2 counterexample: the budget is checked only before dequeuing, never
on merge — at 49 of 50 nodes the dequeue proceeds, and the merge of the
response pushes the reachable graph to 51 nodes, exceeding maxNodes. -/
theorem maxNodes_exceeded_cex :
    Reachable cfg50 c4 ∧ cfg50.maxNodes < c4.graph.nodes.length := by
  refine ⟨?_, by decide⟩
  have t1 : Step cfg50 initState c1 := Step.resetStart initState 7
  have t2 : Step cfg50 c1 c2 := Step.initOk c1 7 bigResponse (by decide)
  have t3 : Step cfg50 c2 c3 := Step.dblclick c2 snapBig 1
  have t4 : Step cfg50 c3 c4 := Step.fetchOk c3 snapBig 1 twoMore (by decide)
  exact (((Relation.ReflTransGen.refl.tail t1).tail t2).tail t3).tail t4

/-- C2 amended: the pre-dequeue budget check does hold — whenever the
queue is non-empty and the node count the processing closure observes has
reached maxNodes, the step clears the whole queue and drops the
processing flag, scheduling nothing further; the node count itself is not
capped on merge and can overshoot (see the counterexample). -/
theorem budget_drain (cfg : Config) (snap : Snap) (s : ClientState)
    (h1 : s.queue ≠ []) (h2 : cfg.maxNodes ≤ snap.graph.nodes.length) :
    runStep cfg snap s = { s with queue := [], flag := false } := by
  unfold runStep
  cases hq : s.queue with
  | nil => exact absurd hq h1
  | cons a rest => simp [h2]

/-- Witness: the drain at a concrete over-budget state. -/
theorem budget_drain_witness :
    runStep { maxNodes := 1, autoLoad := true, extendedMode := true }
        { graph := srcGraph, expanded := [] }
        { initState with queue := [3, 4] } =
      { ({ initState with queue := [3, 4] } : ClientState) with
        queue := [], flag := false } :=
  budget_drain { maxNodes := 1, autoLoad := true, extendedMode := true }
    { graph := srcGraph, expanded := [] } { initState with queue := [3, 4] }
    (by decide) (by decide)

/-- C8: a failed expansion fetch is logged to the error log, marks nothing
expanded, re-enqueues nothing, changes no graph data, and schedules the
continuation timer so the next pending item is still processed; the node
therefore stays unexpanded and eligible for a later viewport pass or
double-click. -/
theorem fetch_failure_handling (cfg : Config) (s : ClientState) (snap : Snap)
    (nodeId : Nat) (h : ChainTask.fetchWait snap nodeId ∈ s.chain)
    (h2 : nodeId ∉ s.expanded) :
    Step cfg s (fetchErrStep cfg snap nodeId s) ∧
    (fetchErrStep cfg snap nodeId s).errLog = s.errLog ++ [nodeId] ∧
    (fetchErrStep cfg snap nodeId s).expanded = s.expanded ∧
    nodeId ∉ (fetchErrStep cfg snap nodeId s).expanded ∧
    (fetchErrStep cfg snap nodeId s).queue = s.queue ∧
    (fetchErrStep cfg snap nodeId s).graph = s.graph ∧
    ChainTask.timer snap ∈ (fetchErrStep cfg snap nodeId s).chain := by
  refine ⟨Step.fetchErr s snap nodeId h, rfl, rfl, h2, rfl, rfl, ?_⟩
  have : (fetchErrStep cfg snap nodeId s).chain =
      (s.chain.erase (ChainTask.fetchWait snap nodeId)) ++ [ChainTask.timer snap] := rfl
  rw [this]
  exact List.mem_append_right _ (List.mem_singleton.mpr rfl)

/-- Witness: failure handling at the in-flight state `a3` of the trace
(fetch for node 1 outstanding, node 1 unexpanded). -/
theorem fetch_failure_handling_witness :
    (fetchErrStep cfgStd snapOld 1 a3).errLog = a3.errLog ++ [1] ∧
    (fetchErrStep cfgStd snapOld 1 a3).expanded = a3.expanded :=
  ⟨(fetch_failure_handling cfgStd a3 snapOld 1 (by decide) (by decide)).2.1,
   (fetch_failure_handling cfgStd a3 snapOld 1 (by decide) (by decide)).2.2.1⟩

end Helix
